import Mathlib

set_option synthInstance.maxSize 1000

/-!
Verification development for the RouterOS API client (`src/controller.ts`).

The development shallowly embeds the TypeScript source:

* JavaScript 32-bit bitwise/shift semantics (`ToInt32`/`ToUint32` wrapping) are
  modelled explicitly over `Int`, since `encodeLength`/`decodeLength` rely on
  them.
* Protocol words are modelled as `List Char` (a JS string as a sequence of
  characters), wire data as `List Nat` (byte values).
* `SocketBuffer` is modelled as an explicit state machine; each operation
  returns the successor state together with the list of promise settlements
  ("events") it performs, in the order the code performs them.
* The `login` / `sendCommand` generator pipeline is modelled as functions over
  the (complete) list of inbound sentences, consumed left to right, which is
  exactly the order the nested async generators consume them.
-/

/-! ## JavaScript 32-bit integer semantics

JS bitwise operators (`&`, `|`, `~`, `<<`, `>>`) coerce their operands with
`ToInt32` (wrap modulo 2^32 into `[-2^31, 2^31)`), operate on 32 bits, and
return a signed 32-bit result.  `+`, `-` and comparisons are exact on the
integers appearing in this program. -/

/-- `ToUint32`: wrap an integer into `[0, 2^32)`. -/
def toUint32 (x : Int) : Nat := (x % 4294967296).toNat

/-- `ToInt32`: wrap an integer into `[-2^31, 2^31)`. -/
def toInt32 (x : Int) : Int :=
  let u : Nat := toUint32 x
  if u < 2147483648 then (u : Int) else (u : Int) - 4294967296

/-- JS `a & b`. -/
def jsAnd (a b : Int) : Int := toInt32 ((Nat.land (toUint32 a) (toUint32 b) : Nat) : Int)

/-- JS `a | b`. -/
def jsOr (a b : Int) : Int := toInt32 ((Nat.lor (toUint32 a) (toUint32 b) : Nat) : Int)

/-- JS `~a`. -/
def jsNot (a : Int) : Int := -(toInt32 a) - 1

/-- JS `a << s` (left shift of the 32-bit value, result reinterpreted signed). -/
def jsShl (a : Int) (s : Nat) : Int := toInt32 ((toUint32 a * 2 ^ (s % 32) : Nat) : Int)

/-- JS `a >> s` (sign-propagating right shift = floor division of the signed
32-bit value). -/
def jsShr (a : Int) (s : Nat) : Int := Int.fdiv (toInt32 a) (2 ^ (s % 32))

/-! ## Length codec (`RouterOSClient.encodeLength` / `decodeLength`) -/

/-- `RouterOSClient.encodeLength` (controller.ts:423-454).  Takes the byte
length of a word (`data.length`, a nonnegative integer) and produces the
RouterOS 1..5 byte length prefix.  Each arithmetic step mirrors the JS
expression, including the `|=` tagging and the `& 0xff` byte extraction. -/
def encodeLength (length : Nat) : List Nat :=
  if length < 0x80 then
    [length]
  else if length < 0x4000 then
    let l := jsOr (length : Int) 0x8000
    [(jsAnd (jsShr l 8) 0xff).toNat, (jsAnd l 0xff).toNat]
  else if length < 0x200000 then
    let l := jsOr (length : Int) 0xc00000
    [(jsAnd (jsShr l 16) 0xff).toNat, (jsAnd (jsShr l 8) 0xff).toNat, (jsAnd l 0xff).toNat]
  else if length < 0x10000000 then
    let l := jsOr (length : Int) 0xe0000000
    [(jsAnd (jsShr l 24) 0xff).toNat, (jsAnd (jsShr l 16) 0xff).toNat,
      (jsAnd (jsShr l 8) 0xff).toNat, (jsAnd l 0xff).toNat]
  else
    [0xf0, (jsAnd (jsShr (length : Int) 24) 0xff).toNat,
      (jsAnd (jsShr (length : Int) 16) 0xff).toNat,
      (jsAnd (jsShr (length : Int) 8) 0xff).toNat,
      (jsAnd (length : Int) 0xff).toNat]

/-- `RouterOSClient.decodeLength` (controller.ts:460-485), over an explicit
byte stream.  The source reads the bytes with `readExact`; here the stream is
the byte list and the unread remainder is returned.  `none` models both a
stream that never delivers enough bytes and the `invalid length prefix`
error.  The decoded value is an `Int` because the JS `<<` used in the source
is a 32-bit *signed* shift, so the decoded value can be negative. -/
def decodeLength : List Nat → Option (Int × List Nat)
  | [] => none
  | b :: rest =>
    let fb : Int := (b : Int)
    if jsAnd fb 0x80 = 0x00 then
      some (fb, rest)
    else if jsAnd fb 0xc0 = 0x80 then
      match rest with
      | b0 :: r => some (jsShl (jsAnd fb (jsNot 0xc0)) 8 + (b0 : Int), r)
      | _ => none
    else if jsAnd fb 0xe0 = 0xc0 then
      match rest with
      | b0 :: b1 :: r =>
        some (jsShl (jsAnd fb (jsNot 0xe0)) 16 + jsShl (b0 : Int) 8 + (b1 : Int), r)
      | _ => none
    else if jsAnd fb 0xf0 = 0xe0 then
      match rest with
      | b0 :: b1 :: b2 :: r =>
        some (jsShl (jsAnd fb (jsNot 0xf0)) 24 + jsShl (b0 : Int) 16 +
          jsShl (b1 : Int) 8 + (b2 : Int), r)
      | _ => none
    else if jsAnd fb 0xf8 = 0xf0 then
      match rest with
      | b0 :: b1 :: b2 :: b3 :: r =>
        some (jsShl (b0 : Int) 24 + jsShl (b1 : Int) 16 + jsShl (b2 : Int) 8 + (b3 : Int), r)
      | _ => none
    else
      none

/-- Sanity: the §4.2 table's listed lengths below `2^31` round-trip with the
tabulated prefix byte count. -/
theorem decodeLength_encodeLength_listed_small :
    (∀ L ∈ [0, 1, 0x7F, 0x80, 0x3FFF, 0x4000, 0x1FFFFF, 0x200000, 0x0FFFFFFF, 0x10000000],
      decodeLength (encodeLength L) = some ((L : Int), [])) ∧
    (encodeLength 0).length = 1 ∧ (encodeLength 0x7F).length = 1 ∧
    (encodeLength 0x80).length = 2 ∧ (encodeLength 0x3FFF).length = 2 ∧
    (encodeLength 0x4000).length = 3 ∧ (encodeLength 0x1FFFFF).length = 3 ∧
    (encodeLength 0x200000).length = 4 ∧ (encodeLength 0x0FFFFFFF).length = 4 ∧
    (encodeLength 0x10000000).length = 5 ∧ (encodeLength 0xFFFFFFFF).length = 5 := by
  decide

/-! ## Words on the wire

A protocol word is a JS string, modelled as a list of characters.  On the
wire it is the UTF-8 bytes of the string, preceded by the encoded length
(`sendWord`, controller.ts:379-385); reading reverses this
(`receiveWord`, controller.ts:394-407). -/

/-- A JS string: an ordered sequence of characters. -/
abbrev Word := List Char

/-- A sentence: the list of words received before the empty terminator word
(the terminator is not an element). -/
abbrev Sentence := List Word

/-- UTF-8 encoding of one code point (what `Buffer.from(word, "utf8")` emits
per character), written arithmetically. -/
def utf8EncodeChar (c : Nat) : List Nat :=
  if c < 0x80 then [c]
  else if c < 0x800 then [0xc0 + c / 0x40, 0x80 + c % 0x40]
  else if c < 0x10000 then [0xe0 + c / 0x1000, 0x80 + c / 0x40 % 0x40, 0x80 + c % 0x40]
  else [0xf0 + c / 0x40000, 0x80 + c / 0x1000 % 0x40, 0x80 + c / 0x40 % 0x40, 0x80 + c % 0x40]

/-- UTF-8 bytes of a word (`Buffer.from(word, "utf8")`). -/
def utf8Encode (w : Word) : List Nat := w.flatMap (fun c => utf8EncodeChar c.toNat)

/-- Decode one UTF-8 sequence from the front of a byte list; `none` on an
invalid leading/continuation byte or an invalid resulting code point. -/
def utf8DecodeChar : List Nat → Option (Char × List Nat)
  | [] => none
  | b :: bs =>
    if b < 0x80 then
      if Nat.isValidChar b then some (Char.ofNat b, bs) else none
    else if b < 0xc0 then none
    else if b < 0xe0 then
      match bs with
      | b1 :: r =>
        if 0x80 ≤ b1 ∧ b1 < 0xc0 then
          let n := (b - 0xc0) * 0x40 + (b1 - 0x80)
          if Nat.isValidChar n then some (Char.ofNat n, r) else none
        else none
      | _ => none
    else if b < 0xf0 then
      match bs with
      | b1 :: b2 :: r =>
        if (0x80 ≤ b1 ∧ b1 < 0xc0) ∧ (0x80 ≤ b2 ∧ b2 < 0xc0) then
          let n := (b - 0xe0) * 0x1000 + (b1 - 0x80) * 0x40 + (b2 - 0x80)
          if Nat.isValidChar n then some (Char.ofNat n, r) else none
        else none
      | _ => none
    else if b < 0xf8 then
      match bs with
      | b1 :: b2 :: b3 :: r =>
        if (0x80 ≤ b1 ∧ b1 < 0xc0) ∧ (0x80 ≤ b2 ∧ b2 < 0xc0) ∧ (0x80 ≤ b3 ∧ b3 < 0xc0) then
          let n := (b - 0xf0) * 0x40000 + (b1 - 0x80) * 0x1000 + (b2 - 0x80) * 0x40 + (b3 - 0x80)
          if Nat.isValidChar n then some (Char.ofNat n, r) else none
        else none
      | _ => none
    else none

/-- Fuelled whole-buffer UTF-8 decode (each step consumes at least one byte,
so `fuel = bs.length` is always enough). -/
def utf8DecodeAux : Nat → List Nat → Option Word
  | _, [] => some []
  | 0, _ :: _ => none
  | fuel + 1, b :: bs =>
    match utf8DecodeChar (b :: bs) with
    | none => none
    | some (c, r) => (utf8DecodeAux fuel r).map (fun w => c :: w)

/-- Decode a whole byte buffer as UTF-8, or fail. -/
def utf8DecodeAll (bs : List Nat) : Option Word := utf8DecodeAux bs.length bs

/-- `receiveWord`'s payload decoding (controller.ts:398-403): decode as UTF-8;
if that is not possible, fall back to a byte-preserving one-character-per-byte
("latin1") decoding. -/
def decodeStr (bs : List Nat) : Word :=
  match utf8DecodeAll bs with
  | some w => w
  | none => bs.map (fun b => Char.ofNat (b % 256))

/-- `SocketBuffer.readExact` viewed over a byte list: exactly `n` bytes or
`none` (insufficient data = the promise never resolves / stream error). -/
def takeExact (n : Nat) (bs : List Nat) : Option (List Nat × List Nat) :=
  if bs.length < n then none else some (bs.take n, bs.drop n)

/-- `RouterOSClient.sendWord` (controller.ts:379-385): length prefix followed
by the UTF-8 payload. -/
def sendWordBytes (w : Word) : List Nat :=
  encodeLength (utf8Encode w).length ++ utf8Encode w

/-- `RouterOSClient.sendSentence` (controller.ts:350-358): every word in
order, then the empty terminator word. -/
def sendSentenceBytes (words : List Word) : List Nat :=
  (words.map sendWordBytes).flatten ++ sendWordBytes []

/-- `RouterOSClient.receiveWord` (controller.ts:394-407): decode the length
prefix, then read exactly that many payload bytes and decode them.  A
negative decoded length (possible through the 32-bit signed shifts in
`decodeLength`) makes `Buffer.allocUnsafe` throw in the source, modelled as
`none`. -/
def receiveWordBytes (bs : List Nat) : Option (Word × List Nat) :=
  match decodeLength bs with
  | none => none
  | some (len, r1) =>
    if len < 0 then none
    else
      match takeExact len.toNat r1 with
      | none => none
      | some (data, r2) => some (decodeStr data, r2)

/-- `decodeLength` always consumes at least the first byte of the stream. -/
theorem decodeLength_length_lt {bs : List Nat} {len : Int} {r : List Nat}
    (h : decodeLength bs = some (len, r)) : r.length < bs.length := by
  match bs with
  | [] => simp [decodeLength] at h
  | b :: rest =>
    simp only [decodeLength] at h
    split at h
    · cases h; simp only [List.length_cons]; omega
    · split at h
      · match rest with
        | [] => simp at h
        | b0 :: r' => cases h; simp only [List.length_cons]; omega
      · split at h
        · match rest with
          | [] => simp at h
          | [b0] => simp at h
          | b0 :: b1 :: r' => cases h; simp only [List.length_cons]; omega
        · split at h
          · match rest with
            | [] => simp at h
            | [b0] => simp at h
            | [b0, b1] => simp at h
            | b0 :: b1 :: b2 :: r' => cases h; simp only [List.length_cons]; omega
          · split at h
            · match rest with
              | [] => simp at h
              | [b0] => simp at h
              | [b0, b1] => simp at h
              | [b0, b1, b2] => simp at h
              | b0 :: b1 :: b2 :: b3 :: r' => cases h; simp only [List.length_cons]; omega
            · simp at h

/-- `receiveWordBytes` always consumes at least one byte. -/
theorem receiveWordBytes_length_lt {bs : List Nat} {w : Word} {r : List Nat}
    (h : receiveWordBytes bs = some (w, r)) : r.length < bs.length := by
  unfold receiveWordBytes at h
  rcases hdec : decodeLength bs with _ | ⟨len, r1⟩
  · simp only [hdec] at h; exact Option.noConfusion h
  · simp only [hdec] at h
    have h1 := decodeLength_length_lt hdec
    by_cases hneg : len < 0
    · rw [if_pos hneg] at h; cases h
    · rw [if_neg hneg] at h
      unfold takeExact at h
      by_cases hlen : r1.length < len.toNat
      · rw [if_pos hlen] at h; cases h
      · rw [if_neg hlen] at h
        cases h
        simp only [List.length_drop]
        omega

/-- `RouterOSClient.receiveSentence` (controller.ts:364-371): read words until
the empty terminator word, which is discarded.  The recursion is fuelled: by
`receiveWordBytes_length_lt` every word consumes at least one byte, so a
stream of `n` bytes holds at most `n` words and fuel `n + 1` never runs
out before the stream itself is exhausted. -/
def receiveSentenceAux : Nat → List Nat → Option (List Word × List Nat)
  | 0, _ => none
  | fuel + 1, bs =>
    match receiveWordBytes bs with
    | none => none
    | some (w, rest) =>
      if w = [] then some ([], rest)
      else (receiveSentenceAux fuel rest).map (fun p => (w :: p.1, p.2))

/-- `RouterOSClient.receiveSentence`: read one sentence from the byte
stream. -/
def receiveSentenceBytes (bs : List Nat) : Option (List Word × List Nat) :=
  receiveSentenceAux (bs.length + 1) bs

/-- Sanity: a two-word sentence round-trips through the wire encoding. -/
theorem sentence_roundtrip_example :
    receiveSentenceBytes (sendSentenceBytes ["/a".toList, "=b=c".toList]) =
      some (["/a".toList, "=b=c".toList], []) := by
  decide

/-- Sanity: a multi-byte UTF-8 word survives payload encode/decode. -/
theorem decodeStr_utf8_example :
    decodeStr (utf8Encode "päß€".toList) = "päß€".toList := by
  decide

/-! ## MD5 (node `crypto.createHash("md5")`)

The login challenge-response hashes `0x00 ‖ UTF8(password) ‖ challenge`
with MD5.  MD5 is embedded here directly (RFC 1321): little-endian 32-bit
words, 64 rounds per 512-bit block.  The implementation is validated below
against standard digests. -/

/-- The 64 MD5 round constants `K[i] = floor(2^32 * |sin(i + 1)|)`. -/
def md5K : List Nat :=
  [3614090360, 3905402710, 606105819, 3250441966, 4118548399, 1200080426, 2821735955,
   4249261313, 1770035416, 2336552879, 4294925233, 2304563134, 1804603682, 4254626195,
   2792965006, 1236535329, 4129170786, 3225465664, 643717713, 3921069994, 3593408605,
   38016083, 3634488961, 3889429448, 568446438, 3275163606, 4107603335, 1163531501,
   2850285829, 4243563512, 1735328473, 2368359562, 4294588738, 2272392833, 1839030562,
   4259657740, 2763975236, 1272893353, 4139469664, 3200236656, 681279174, 3936430074,
   3572445317, 76029189, 3654602809, 3873151461, 530742520, 3299628645, 4096336452,
   1126891415, 2878612391, 4237533241, 1700485571, 2399980690, 4293915773, 2240044497,
   1873313359, 4264355552, 2734768916, 1309151649, 4149444226, 3174756917, 718787259,
   3951481745]

/-- The 64 MD5 per-round left-rotation amounts. -/
def md5S : List Nat :=
  [7, 12, 17, 22, 7, 12, 17, 22, 7, 12, 17, 22, 7, 12, 17, 22,
   5, 9, 14, 20, 5, 9, 14, 20, 5, 9, 14, 20, 5, 9, 14, 20,
   4, 11, 16, 23, 4, 11, 16, 23, 4, 11, 16, 23, 4, 11, 16, 23,
   6, 10, 15, 21, 6, 10, 15, 21, 6, 10, 15, 21, 6, 10, 15, 21]

/-- 32-bit left rotation (operand assumed `< 2^32`). -/
def rotl32 (x s : Nat) : Nat := (x * 2 ^ s + x / 2 ^ (32 - s)) % 4294967296

/-- 32-bit complement. -/
def not32 (x : Nat) : Nat := 4294967295 - x % 4294967296

/-- MD5 round function and message index for round `i`. -/
def md5FG (i b c d : Nat) : Nat × Nat :=
  if i < 16 then ((b &&& c) ||| (not32 b &&& d), i)
  else if i < 32 then ((d &&& b) ||| (not32 d &&& c), (5 * i + 1) % 16)
  else if i < 48 then (b ^^^ c ^^^ d, (3 * i + 5) % 16)
  else (c ^^^ (b ||| not32 d), (7 * i) % 16)

/-- One MD5 round on the state `(a, b, c, d)`. -/
def md5Round (m : List Nat) (st : Nat × Nat × Nat × Nat) (i : Nat) : Nat × Nat × Nat × Nat :=
  let a := st.1
  let b := st.2.1
  let c := st.2.2.1
  let d := st.2.2.2
  let fg := md5FG i b c d
  let f := (fg.1 + a + md5K.getD i 0 + m.getD fg.2 0) % 4294967296
  (d, (b + rotl32 f (md5S.getD i 0)) % 4294967296, b, c)

/-- Little-endian 32-bit word `g` of a 64-byte block. -/
def leWord (block : List Nat) (g : Nat) : Nat :=
  block.getD (4 * g) 0 + 256 * block.getD (4 * g + 1) 0 +
    65536 * block.getD (4 * g + 2) 0 + 16777216 * block.getD (4 * g + 3) 0

/-- Process one 64-byte block. -/
def md5Compress (st : Nat × Nat × Nat × Nat) (block : List Nat) : Nat × Nat × Nat × Nat :=
  let m := (List.range 16).map (leWord block)
  let r := (List.range 64).foldl (md5Round m) st
  ((st.1 + r.1) % 4294967296, (st.2.1 + r.2.1) % 4294967296,
    (st.2.2.1 + r.2.2.1) % 4294967296, (st.2.2.2 + r.2.2.2) % 4294967296)

/-- `k` little-endian bytes of `n`. -/
def leBytes : Nat → Nat → List Nat
  | 0, _ => []
  | k + 1, n => n % 256 :: leBytes k (n / 256)

/-- MD5 padding: `0x80`, zeros to 56 mod 64, then the 64-bit little-endian
bit length. -/
def md5Pad (msg : List Nat) : List Nat :=
  let zeros := (64 + 56 - (msg.length + 1) % 64) % 64
  msg ++ 0x80 :: List.replicate zeros 0 ++ leBytes 8 (msg.length * 8)

/-- Split a (padded) buffer into 64-byte blocks; the fuel only bounds the
number of blocks, and the padded length is a positive multiple of 64, so fuel
equal to the buffer length never runs out. -/
def toBlocksAux : Nat → List Nat → List (List Nat)
  | 0, _ => []
  | _, [] => []
  | fuel + 1, b :: bs => (b :: bs).take 64 :: toBlocksAux fuel ((b :: bs).drop 64)

/-- MD5 digest (16 bytes) of a byte sequence. -/
def md5Bytes (msg : List Nat) : List Nat :=
  let padded := md5Pad msg
  let st := (toBlocksAux padded.length padded).foldl md5Compress
    (0x67452301, 0xefcdab89, 0x98badcfe, 0x10325476)
  leBytes 4 st.1 ++ leBytes 4 st.2.1 ++ leBytes 4 st.2.2.1 ++ leBytes 4 st.2.2.2

/-- Lowercase hexadecimal digit. -/
def hexDigitChar (n : Nat) : Char := Char.ofNat (if n < 10 then 48 + n else 87 + n)

/-- Lowercase hex string of the MD5 digest (`hash.digest("hex")`). -/
def md5Hex (msg : List Nat) : Word :=
  (md5Bytes msg).flatMap (fun b => [hexDigitChar (b / 16), hexDigitChar (b % 16)])

/-- Numeric value of a hex digit character, if any. -/
def hexVal (c : Char) : Option Nat :=
  if 48 ≤ c.toNat ∧ c.toNat ≤ 57 then some (c.toNat - 48)
  else if 97 ≤ c.toNat ∧ c.toNat ≤ 102 then some (c.toNat - 87)
  else if 65 ≤ c.toNat ∧ c.toNat ≤ 70 then some (c.toNat - 55)
  else none

/-- `Buffer.from(str, "hex")`: decode hex digit pairs, stopping at the first
incomplete or invalid pair. -/
def hexDecode : List Char → List Nat
  | c1 :: c2 :: rest =>
    match hexVal c1, hexVal c2 with
    | some hi, some lo => (16 * hi + lo) :: hexDecode rest
    | _, _ => []
  | _ => []

set_option maxRecDepth 100000

/-- Validation of the MD5 embedding against the standard digest of `"abc"`. -/
theorem md5Hex_abc : md5Hex (utf8Encode "abc".toList) = "900150983cd24fb0d6963f7d28e17f72".toList := by
  decide

/-- Validation of the MD5 embedding against the standard digest of the empty
message. -/
theorem md5Hex_empty : md5Hex [] = "d41d8cd98f00b204e9800998ecf8427e".toList := by
  decide

/-- Validation of the challenge-response test vector: the independently
computed MD5 of `0x00 ‖ "test" ‖ hexDecode("0102030405060708090a0b0c0d0e0f10")`. -/
theorem md5Hex_challenge_vector :
    md5Hex (0 :: (utf8Encode "test".toList ++ hexDecode "0102030405060708090a0b0c0d0e0f10".toList)) =
      "cba7ea64be821496c299d7ab74ead4aa".toList := by
  decide

/-! ## Reply parsing and the command/reply exchange
(`RouterOSClient.sendCommand`, controller.ts:308-334) -/

/-- A parsed reply: reply-type word and attribute mapping (`ApiReply`). -/
abbrev ApiReply := Word × List (Word × Word)

/-- The word `"!trap"`. -/
def trapWord : Word := "!trap".toList

/-- JS `word.indexOf("=", 1)` followed by the substring split
(controller.ts:320-326): key is everything before the first `=` at
position ≥ 1, value everything after it; a word without such a `=` maps
whole-word to the empty value. -/
def splitAttrWord (w : Word) : Word × Word :=
  match w with
  | [] => (w, [])
  | c :: rest =>
    match rest.findIdx? (fun ch => ch == '=') with
    | none => (w, [])
    | some i => (c :: rest.take i, rest.drop (i + 1))

/-- The property key `"__proto__"`, which JS assignment treats specially. -/
def protoWord : Word := "__proto__".toList

/-- Creating or overwriting an own property of a plain object, in the
association-list model: overwrite in place if the key exists, else append. -/
def setOwnProp : List (Word × Word) → Word → Word → List (Word × Word)
  | [], k, v => [(k, v)]
  | (k', v') :: rest, k, v =>
    if k' = k then (k, v) :: rest else (k', v') :: setOwnProp rest k v

/-- JS object property assignment `attributes[key] = value` on a plain
object (`{}`): creates or overwrites the own property — EXCEPT for the key
`"__proto__"`.  That assignment is routed to the inherited
`Object.prototype.__proto__` accessor, whose setter ignores primitive
values (ECMA-262 B.2.2.1.2); the values assigned here are always strings,
so no own property is created and the mapping is left unchanged. -/
def insertAttr (m : List (Word × Word)) (k v : Word) : List (Word × Word) :=
  if k = protoWord then m else setOwnProp m k v

/-- JS object property read `attributes[key]` / `key in attributes`,
restricted to own (string-valued) properties.  In JS a read of a key that
was never assigned can still surface an inherited `Object.prototype`
member (e.g. `"toString"`, or `Object.prototype` itself for
`"__proto__"`), but no consumer in this program reads such a key: `login`
only consults `"=ret"`, which is not an `Object.prototype` member. -/
def lookupAttr : List (Word × Word) → Word → Option Word
  | [], _ => none
  | (k', v') :: rest, k => if k' = k then some v' else lookupAttr rest k

/-- The attribute mapping built from the non-first words of a sentence
(controller.ts:317-327). -/
def parseAttrs (ws : List Word) : List (Word × Word) :=
  ws.foldl (fun m w => let p := splitAttrWord w; insertAttr m p.1 p.2) []

/-- Parse a received sentence: first word is the reply type, the rest the
attribute mapping.  Only applied to non-empty sentences in the model, as in
the source. -/
def parseSentence : Sentence → ApiReply
  | [] => ([], [])
  | ty :: rest => (ty, parseAttrs rest)

/-- The generator's termination test (controller.ts:332):
`replyType === "!done" || replyType === "!empty"`. -/
def isTerminalWord (w : Word) : Bool :=
  if w = "!done".toList then true else if w = "!empty".toList then true else false

/-- Whether a sentence would end the exchange (non-empty with a terminal
first word). -/
def startsTerminal : Sentence → Bool
  | [] => false
  | w :: _ => isTerminalWord w

/-- The reply sequence produced by the `while (true)` receive loop of
`sendCommand` over a complete inbound sentence list: empty sentences are
skipped, every other sentence is parsed and yielded, and the loop stops
right after yielding a sentence whose first word is terminal.  Returns the
yielded replies together with the number of sentences consumed; `none`
models an exchange that never sees a terminal reply (the generator would
keep awaiting). -/
def runReplies : List Sentence → Option (List ApiReply × Nat)
  | [] => none
  | s :: rest =>
    if s = [] then (runReplies rest).map (fun p => (p.1, p.2 + 1))
    else
      let r := parseSentence s
      if isTerminalWord r.1 then some ([r], 1)
      else (runReplies rest).map (fun p => (r :: p.1, p.2 + 1))

/-- `RouterOSClient.sendCommand` (controller.ts:308-334): send the words as
one sentence; if no words were sent (`sentCount === 0`) finish immediately
with no replies and no reads, otherwise run the receive loop. -/
def sendCommand (words : List Word) (inbound : List Sentence) : Option (List ApiReply × Nat) :=
  if words = [] then some ([], 0) else runReplies inbound

/-! ## Login (`RouterOSClient.login`, controller.ts:263-295)

`login` iterates `sendCommand(["/login", "=name=…", "=password=…"])`; on a
reply carrying `"=ret"` it runs a nested
`sendCommand(["/login", "=name=…", "=response=00…"])` over the *same*
inbound stream (the nested async generator continues reading where the
outer one paused), then resumes the outer iteration.  That flattens to one
pass over the inbound sentence list with an outer/inner mode; `loginGo`
below is that pass.  It returns the login sentences sent and `some result`,
or `none` when the stream is exhausted with an exchange still awaiting
replies. -/

/-- The first login sentence `["/login", "=name=" + u, "=password=" + p]`. -/
def loginFirstSentence (u p : Word) : List Word :=
  ["/login".toList, "=name=".toList ++ u, "=password=".toList ++ p]

/-- The challenge-response sentence: given the hex challenge `h` from
`"=ret"`, the response word is `"=response=00"` followed by the lowercase
MD5 hex digest of `0x00 ‖ UTF8(password) ‖ hexDecode(h)`
(controller.ts:274-288). -/
def challengeSentence (u p h : Word) : List Word :=
  ["/login".toList, "=name=".toList ++ u,
    "=response=00".toList ++ md5Hex (0 :: (utf8Encode p ++ hexDecode h))]

/-- Which exchange the flattened login pass is currently consuming: the
first `/login` exchange, or a nested challenge `/login` exchange (recording
whether the outer reply that carried `"=ret"` was itself terminal). -/
inductive LoginMode
  | outer : LoginMode
  | inner (outerTerminal : Bool) : LoginMode

/-- One pass of `login` over the inbound sentences.  `acc` accumulates the
sentences sent so far; the result is `(sentences sent, some success?)`, or
`(sentences sent, none)` if the stream ends while an exchange is still
awaiting a reply. -/
def loginGo (u p : Word) : LoginMode → List Sentence → List (List Word) →
    List (List Word) × Option Bool
  | _, [], acc => (acc, none)
  | .outer, s :: rest, acc =>
    if s = [] then loginGo u p .outer rest acc
    else
      let r := parseSentence s
      if r.1 = trapWord then (acc, some false)
      else
        match lookupAttr r.2 "=ret".toList with
        | some h =>
          loginGo u p (.inner (isTerminalWord r.1)) rest (acc ++ [challengeSentence u p h])
        | none =>
          if isTerminalWord r.1 then (acc, some true) else loginGo u p .outer rest acc
  | .inner ot, s :: rest, acc =>
    if s = [] then loginGo u p (.inner ot) rest acc
    else
      let ty := (parseSentence s).1
      if ty = trapWord then (acc, some false)
      else if isTerminalWord ty then
        if ot then (acc, some true) else loginGo u p .outer rest acc
      else loginGo u p (.inner ot) rest acc

/-- `RouterOSClient.login` over an inbound sentence stream: sends the first
login sentence, then processes replies as `loginGo`. -/
def login (u p : Word) (inbound : List Sentence) : List (List Word) × Option Bool :=
  loginGo u p .outer inbound [loginFirstSentence u p]

/-- Sanity: a plain login against `[["!done"]]` succeeds with one sentence
sent. -/
theorem login_plain_example :
    login "admin".toList "pw".toList [["!done".toList]] =
      ([loginFirstSentence "admin".toList "pw".toList], some true) := by
  decide

/-! ## `SocketBuffer` (controller.ts:126-220)

The buffer is modelled as an explicit state.  Waiters carry a submission id
(the position of the underlying promise in submission order) and the
requested size.  Each operation returns the successor state and the list of
promise settlements ("events") it performs, in the order the source
performs them.  Errors passed to `fail` are opaque JS values, indexed here
by a natural number token. -/

/-- How a waiter's promise is settled. -/
inductive SBOutcome
  | ok (bytes : List Nat) : SBOutcome
  | errExt (e : Nat) : SBOutcome
  | errClosed : SBOutcome
deriving DecidableEq

/-- A settlement event: the id of the `readExact` promise and its outcome.
`errClosed` is the `new Error("connection closed by remote end")` rejection;
`errExt e` is rejection with the stored `fail` error `e`. -/
abbrev SBEvent := Nat × SBOutcome

/-- `SocketBuffer` state: chunk queue, running byte total, FIFO waiter queue
(id, size), `closed` flag, stored error, and the next promise id. -/
structure SBState where
  queue : List (List Nat)
  total : Nat
  waiters : List (Nat × Nat)
  closed : Bool
  error : Option Nat
  nextId : Nat
deriving DecidableEq

/-- A fresh `SocketBuffer`. -/
def initSB : SBState := ⟨[], 0, [], false, none, 0⟩

/-- The inner copy loop of `flush` (controller.ts:191-203): drain `n` bytes
from the front of the chunk queue, splitting the first chunk if it is only
partially consumed. -/
def takeChunks : List (List Nat) → Nat → List Nat × List (List Nat)
  | cs, 0 => ([], cs)
  | [], _ + 1 => ([], [])
  | c :: cs, n + 1 =>
    if c.length ≤ n + 1 then
      let r := takeChunks cs (n + 1 - c.length)
      (c ++ r.1, r.2)
    else
      (c.take (n + 1), c.drop (n + 1) :: cs)

/-- The `while (this.waiters.length)` loop of `flush`
(controller.ts:171-207), structurally recursive over the waiter queue.
Branches, in source order: a stored error rejects the head waiter and
continues; insufficient data rejects the head waiter if `closed` and then
breaks (note: only the head); otherwise the head waiter is resolved with
its bytes and the loop continues.  Returns the remaining waiters, the new
chunk queue and total, and the events in execution order. -/
def flushCore (err : Option Nat) (closed : Bool) :
    List (Nat × Nat) → List (List Nat) → Nat →
    List (Nat × Nat) × List (List Nat) × Nat × List SBEvent
  | [], q, tot => ([], q, tot, [])
  | w :: rest, q, tot =>
    match err with
    | some e =>
      let r := flushCore err closed rest q tot
      (r.1, r.2.1, r.2.2.1, (w.1, .errExt e) :: r.2.2.2)
    | none =>
      if tot < w.2 then
        if closed then (rest, q, tot, [(w.1, .errClosed)])
        else (w :: rest, q, tot, [])
      else
        let oq := takeChunks q w.2
        let r := flushCore err closed rest oq.2 (tot - w.2)
        (r.1, r.2.1, r.2.2.1, (w.1, .ok oq.1) :: r.2.2.2)

/-- `SocketBuffer.flush` on a state. -/
def flushSB (sb : SBState) : SBState × List SBEvent :=
  let r := flushCore sb.error sb.closed sb.waiters sb.queue sb.total
  ({ sb with waiters := r.1, queue := r.2.1, total := r.2.2.1 }, r.2.2.2)

/-- `SocketBuffer.feed` (controller.ts:140-145): ignored after close or
error; otherwise enqueue the chunk and flush. -/
def feedSB (sb : SBState) (chunk : List Nat) : SBState × List SBEvent :=
  if sb.closed || sb.error.isSome then (sb, [])
  else flushSB { sb with queue := sb.queue ++ [chunk], total := sb.total + chunk.length }

/-- `SocketBuffer.end` (controller.ts:151-154): mark closed and flush. -/
def endSB (sb : SBState) : SBState × List SBEvent :=
  flushSB { sb with closed := true }

/-- `SocketBuffer.fail` (controller.ts:159-165): store the error, then shift
and reject every queued waiter, in order. -/
def failSB (sb : SBState) (e : Nat) : SBState × List SBEvent :=
  ({ sb with error := some e, waiters := [] },
    sb.waiters.map (fun w => (w.1, SBOutcome.errExt e)))

/-- `SocketBuffer.readExact` (controller.ts:213-219): size 0 resolves
immediately with an empty buffer without queuing; otherwise enqueue a waiter
and flush. -/
def readExactSB (sb : SBState) (n : Nat) : SBState × List SBEvent :=
  if n = 0 then ({ sb with nextId := sb.nextId + 1 }, [(sb.nextId, .ok [])])
  else flushSB { sb with waiters := sb.waiters ++ [(sb.nextId, n)], nextId := sb.nextId + 1 }

/-- The public operations of `SocketBuffer`. -/
inductive SBOp
  | feed (chunk : List Nat) : SBOp
  | endStream : SBOp
  | fail (e : Nat) : SBOp
  | readExact (n : Nat) : SBOp

/-- One operation step. -/
def stepSB (sb : SBState) : SBOp → SBState × List SBEvent
  | .feed chunk => feedSB sb chunk
  | .endStream => endSB sb
  | .fail e => failSB sb e
  | .readExact n => readExactSB sb n

/-- The waiter queue right after an operation's own submission (before any
flushing): `readExact n` appends a fresh waiter, everything else leaves the
queue as is.  (`readExact 0` never queues; it is excluded by hypothesis
where this is used.) -/
def submittedWaiters (sb : SBState) : SBOp → List (Nat × Nat)
  | .readExact n => if n = 0 then sb.waiters else sb.waiters ++ [(sb.nextId, n)]
  | _ => sb.waiters

/-- Sanity: chunk boundaries are invisible — two one-byte feeds then
`readExact 2` deliver the same bytes as one two-byte feed. -/
theorem sb_chunk_independence_example :
    (readExactSB (feedSB (feedSB initSB [1]).1 [65]).1 2).2 =
      (readExactSB (feedSB initSB [1, 65]).1 2).2 := by
  decide

/-! ## Supporting lemmas for the `SocketBuffer` theorems -/

/-- With a stored error, the flush loop rejects every queued waiter with that
error, in order, touching neither the chunk queue nor the total. -/
theorem flushCore_error (e : Nat) (closed : Bool) :
    ∀ (ws : List (Nat × Nat)) (q : List (List Nat)) (tot : Nat),
      flushCore (some e) closed ws q tot =
        ([], q, tot, ws.map (fun w => (w.1, SBOutcome.errExt e))) := by
  intro ws
  induction ws with
  | nil => intro q tot; rfl
  | cons w rest ih => intro q tot; simp [flushCore, ih]

/-- FIFO property of the flush loop: the events it emits settle exactly the
first `k` waiters of the queue, in order, and the remaining queue is the
corresponding suffix. -/
theorem flushCore_fifo (err : Option Nat) (closed : Bool) :
    ∀ (ws : List (Nat × Nat)) (q : List (List Nat)) (tot : Nat),
      ∃ k, (flushCore err closed ws q tot).2.2.2.map Prod.fst = (ws.take k).map Prod.fst ∧
        (flushCore err closed ws q tot).1 = ws.drop k := by
  intro ws
  induction ws with
  | nil => intro q tot; exact ⟨0, rfl, rfl⟩
  | cons w rest ih =>
    intro q tot
    match err with
    | some e =>
      refine ⟨rest.length + 1, ?_, ?_⟩
      · simp [flushCore_error]
      · simp [flushCore_error]
    | none =>
      by_cases hlt : tot < w.2
      · by_cases hc : closed = true
        · refine ⟨1, ?_, ?_⟩
          · simp [flushCore, hlt, hc]
          · simp [flushCore, hlt, hc]
        · refine ⟨0, ?_, ?_⟩
          · simp [flushCore, hlt, hc]
          · simp [flushCore, hlt, hc]
      · obtain ⟨k, h1, h2⟩ := ih (takeChunks q w.2).2 (tot - w.2)
        refine ⟨k + 1, ?_, ?_⟩
        · simp [flushCore, hlt, h1]
        · simp [flushCore, hlt, h2]

/-! ## Claim theorems for the `SocketBuffer` -/

/-- Claim C1.  The length codec does NOT round-trip on the full 32-bit
range: at the spec's listed length `0xFFFFFFFF` the encoder emits the
correct 5-byte prefix `f0 ff ff ff ff`, but the decoder reassembles the
value with JS `<<`, a 32-bit *signed* shift, so `0xff << 24` is negative
and the decoded length is `-1`, not `0xFFFFFFFF`.  (All listed lengths
below `2^31` do round-trip — see `decodeLength_encodeLength_listed_small`.) -/
theorem c1_roundtrip_fails_at_max :
    decodeLength (encodeLength 0xFFFFFFFF) = some (-1, []) ∧
    (encodeLength 0xFFFFFFFF).length = 5 ∧
    (-1 : Int) ≠ (0xFFFFFFFF : Int) := by
  decide

/-- Claim C5.  `end()` with several unsatisfiable pending waiters rejects
ONLY the head waiter: after feeding 2 bytes and queueing two `readExact(5)`
waiters, `end()` emits exactly one rejection (waiter id 0) and leaves
waiter id 1 queued; a subsequent feed is ignored (`closed` is set), so that
waiter can never be settled by arriving data.  This contradicts the claimed
"every pending waiter … fails promptly": the `flush` loop's insufficient-data
branch rejects the head and then unconditionally `break`s. -/
theorem c5_end_rejects_only_head_waiter :
    (endSB (readExactSB (readExactSB (feedSB initSB [10, 20]).1 5).1 5).1).2 =
      [(0, SBOutcome.errClosed)] ∧
    (endSB (readExactSB (readExactSB (feedSB initSB [10, 20]).1 5).1 5).1).1.waiters =
      [(1, 5)] ∧
    (feedSB (endSB (readExactSB (readExactSB (feedSB initSB [10, 20]).1 5).1 5).1).1
      [30, 40, 50]).2 = [] ∧
    (feedSB (endSB (readExactSB (readExactSB (feedSB initSB [10, 20]).1 5).1 5).1).1
      [30, 40, 50]).1 =
      (endSB (readExactSB (readExactSB (feedSB initSB [10, 20]).1 5).1 5).1).1 := by
  decide

/-- Claim C6, counterexample.  `readExact(0)` issued after `fail(7)`
SUCCEEDS: it resolves immediately with an empty buffer (the `size === 0`
short-circuit precedes the error check), so not every post-failure read
fails with the stored error. -/
theorem c6_counterexample_read_zero_after_fail :
    (readExactSB (failSB initSB 7).1 0).2 = [(0, SBOutcome.ok [])] ∧
    (readExactSB (failSB initSB 7).1 0).2 ≠ [(0, SBOutcome.errExt 7)] := by
  decide

/-- Claim C6, amended.  `fail(e)` rejects every currently queued waiter with
`e`, in order; and every `readExact(n)` with `n ≥ 1` issued on a stream
whose stored error is `e` (as after `fail(e)`) is rejected with `e` (along
with any waiters still queued in front of it).  `readExact(0)` is the one
exception: it resolves immediately without consulting the error. -/
theorem c6_amended_fail_semantics :
    ∀ (sb : SBState) (e : Nat),
      (failSB sb e).2 = sb.waiters.map (fun w => (w.1, SBOutcome.errExt e)) ∧
      ∀ (sb2 : SBState) (n : Nat), sb2.error = some e → 1 ≤ n →
        (readExactSB sb2 n).2 =
          (sb2.waiters ++ [(sb2.nextId, n)]).map (fun w => (w.1, SBOutcome.errExt e)) := by
  intro sb e
  refine ⟨rfl, ?_⟩
  intro sb2 n herr hn
  have hne : n ≠ 0 := by omega
  simp only [readExactSB, if_neg hne, flushSB, herr, flushCore_error]

/-- Witness for `c6_amended_fail_semantics`: a buffer with one pending
`readExact 5` waiter; `fail 7` rejects it with error 7, and a following
`readExact 3` is rejected with error 7 as well. -/
theorem c6_amended_fail_semantics_witness :
    ((failSB (readExactSB initSB 5).1 7).2 = [(0, SBOutcome.errExt 7)]) ∧
    ((failSB (readExactSB initSB 5).1 7).1.error = some 7 ∧ 1 ≤ 3) ∧
    (readExactSB (failSB (readExactSB initSB 5).1 7).1 3).2 = [(1, SBOutcome.errExt 7)] :=
  ⟨((c6_amended_fail_semantics (readExactSB initSB 5).1 7).1).trans (by decide),
    ⟨by decide, by decide⟩,
    ((c6_amended_fail_semantics (readExactSB initSB 5).1 7).2
      (failSB (readExactSB initSB 5).1 7).1 3 (by decide) (by decide)).trans (by decide)⟩

/-- Claim C8, counterexample.  A later `readExact(0)` IS satisfied ahead of
an earlier, larger `readExact(5)` that is still waiting for bytes: with 2
bytes buffered and `readExact(5)` pending (promise id 0), `readExact(0)`
(promise id 1) resolves immediately while waiter 0 stays queued. -/
theorem c8_counterexample_read_zero_overtakes :
    (readExactSB (readExactSB (feedSB initSB [1, 2]).1 5).1 0).2 = [(1, SBOutcome.ok [])] ∧
    (readExactSB (readExactSB (feedSB initSB [1, 2]).1 5).1 0).1.waiters = [(0, 5)] := by
  decide

/-- Claim C8, amended.  For queued requests — i.e. excluding `readExact(0)`,
which never queues — waiters are settled strictly in FIFO submission order:
every operation settles exactly the first `k` waiters of the
(possibly just-extended) queue, in order, and leaves the corresponding
suffix queued.  In particular a later-submitted `readExact(m)` with `m ≥ 1`
is never satisfied before an earlier-submitted waiter still in the queue. -/
theorem c8_amended_fifo :
    ∀ (sb : SBState) (op : SBOp), (∀ n, op = SBOp.readExact n → 1 ≤ n) →
      ∃ k, (stepSB sb op).2.map Prod.fst = ((submittedWaiters sb op).take k).map Prod.fst ∧
        (stepSB sb op).1.waiters = (submittedWaiters sb op).drop k := by
  intro sb op hop
  match op with
  | .feed chunk =>
    simp only [stepSB, feedSB, submittedWaiters]
    by_cases hcl : (sb.closed || sb.error.isSome) = true
    · rw [if_pos hcl]; exact ⟨0, rfl, rfl⟩
    · rw [if_neg hcl]
      obtain ⟨k, h1, h2⟩ := flushCore_fifo sb.error sb.closed sb.waiters
        (sb.queue ++ [chunk]) (sb.total + chunk.length)
      exact ⟨k, h1, h2⟩
  | .endStream =>
    simp only [stepSB, endSB, submittedWaiters]
    obtain ⟨k, h1, h2⟩ := flushCore_fifo sb.error true sb.waiters sb.queue sb.total
    exact ⟨k, h1, h2⟩
  | .fail e =>
    refine ⟨sb.waiters.length, ?_, ?_⟩
    · simp [stepSB, failSB, submittedWaiters]
    · simp [stepSB, failSB, submittedWaiters]
  | .readExact n =>
    have hn : n ≠ 0 := by
      have := hop n rfl
      omega
    simp only [stepSB, readExactSB, if_neg hn, submittedWaiters, flushSB]
    obtain ⟨k, h1, h2⟩ := flushCore_fifo sb.error sb.closed
      (sb.waiters ++ [(sb.nextId, n)]) sb.queue sb.total
    exact ⟨k, by simp [hn, h1], by simp [hn, h2]⟩

/-- Witness for `c8_amended_fifo`: the buffer holds `[1, 2]`; `readExact 1`
(a queued request, `1 ≤ 1`) is settled as the unique earliest waiter. -/
theorem c8_amended_fifo_witness :
    ∃ k, (stepSB (feedSB initSB [1, 2]).1 (SBOp.readExact 1)).2.map Prod.fst =
        ((submittedWaiters (feedSB initSB [1, 2]).1 (SBOp.readExact 1)).take k).map Prod.fst ∧
      (stepSB (feedSB initSB [1, 2]).1 (SBOp.readExact 1)).1.waiters =
        (submittedWaiters (feedSB initSB [1, 2]).1 (SBOp.readExact 1)).drop k :=
  c8_amended_fifo (feedSB initSB [1, 2]).1 (SBOp.readExact 1)
    (fun n h => by injection h with h1; omega)

/-- Claim C10.  An empty command sends exactly the single zero byte of the
empty terminator word on the wire, and the exchange yields no replies and
consumes no inbound sentences at all, whatever the peer would have sent. -/
theorem c10_empty_command_no_reads :
    sendSentenceBytes [] = [0] ∧
    ∀ inbound : List Sentence, sendCommand [] inbound = some ([], 0) := by
  exact ⟨by decide, fun _ => rfl⟩

/-! ## Claim theorems for the command/reply exchange -/

/-- Claim C3, counterexample.  For the EMPTY command the claimed behaviour
fails: `sendCommand` returns immediately (`sentCount === 0`), yielding zero
replies and consuming zero sentences, even though the peer's inbound
sequence contains a data reply and a terminal reply that the claim says
would be surfaced. -/
theorem c3_counterexample_empty_command :
    sendCommand [] [["!re".toList], ["!done".toList]] = some ([], 0) ∧
    sendCommand [] [["!re".toList], ["!done".toList]] ≠
      some ([parseSentence ["!re".toList], parseSentence ["!done".toList]], 2) := by
  decide


/-- Claim C3, amended: for every NON-EMPTY command.  If the inbound
sentences consist of a prefix `pre` none of whose sentences starts with a
terminal word, followed by a sentence starting with a terminal word, then
the exchange yields one parsed reply per non-empty sentence of `pre`, in
arrival order (empty sentences are skipped silently and do not end the
exchange), then the terminal reply itself, and consumes exactly
`pre.length + 1` sentences — nothing after the terminal sentence is read. -/
theorem c3_amended_exchange :
    ∀ (words : List Word) (pre post : List Sentence) (w : Word) (ws : List Word),
      words ≠ [] → (∀ s ∈ pre, startsTerminal s = false) → isTerminalWord w = true →
      sendCommand words (pre ++ (w :: ws) :: post) =
        some ((pre.filter (fun s => !s.isEmpty)).map parseSentence ++
          [parseSentence (w :: ws)], pre.length + 1) := by
  intro words pre post w ws hw hclean hterm
  simp only [sendCommand, if_neg hw]
  revert hclean
  induction pre with
  | nil =>
    intro _
    simp only [List.nil_append, List.filter_nil, List.map_nil, List.length_nil, runReplies]
    rw [if_neg (by simp)]
    have hfst : (parseSentence (w :: ws)).1 = w := rfl
    rw [hfst, if_pos hterm]
  | cons s0 pre' ih =>
    intro hclean
    have h0 : startsTerminal s0 = false := hclean s0 (List.mem_cons_self s0 pre')
    have hrest : ∀ s ∈ pre', startsTerminal s = false :=
      fun s hs => hclean s (List.mem_cons_of_mem s0 hs)
    cases s0 with
    | nil =>
      rw [List.cons_append]
      rw [show runReplies ([] :: (pre' ++ (w :: ws) :: post)) =
          (runReplies (pre' ++ (w :: ws) :: post)).map (fun p => (p.1, p.2 + 1)) from by
        simp [runReplies]]
      rw [ih hrest]
      simp [List.filter_cons]
    | cons w0 ws0 =>
      have hterm0 : isTerminalWord w0 = false := h0
      rw [List.cons_append]
      have hstep : runReplies ((w0 :: ws0) :: (pre' ++ (w :: ws) :: post)) =
          (runReplies (pre' ++ (w :: ws) :: post)).map
            (fun p => (parseSentence (w0 :: ws0) :: p.1, p.2 + 1)) := by
        simp only [runReplies]
        rw [if_neg (by simp)]
        have hfst : (parseSentence (w0 :: ws0)).1 = w0 := rfl
        rw [if_neg (by simp [hfst, hterm0])]
      rw [hstep, ih hrest]
      simp [List.filter_cons]

/-- Witness for `c3_amended_exchange`: the spec's end-to-end scenario — two
`!re` data replies then one `!done` — surfaces exactly three replies, in
order, consuming exactly three sentences. -/
theorem c3_amended_exchange_witness :
    (["/print".toList] ≠ ([] : List Word)) ∧
    (∀ s ∈ [["!re".toList, "=a=1".toList], ["!re".toList, "=a=2".toList]],
      startsTerminal s = false) ∧
    isTerminalWord "!done".toList = true ∧
    sendCommand ["/print".toList]
        ([["!re".toList, "=a=1".toList], ["!re".toList, "=a=2".toList]] ++
          ("!done".toList :: []) :: []) =
      some (([["!re".toList, "=a=1".toList], ["!re".toList, "=a=2".toList]].filter
          (fun s => !s.isEmpty)).map parseSentence ++
        [parseSentence ("!done".toList :: [])],
        [["!re".toList, "=a=1".toList], ["!re".toList, "=a=2".toList]].length + 1) :=
  ⟨by decide, by decide, by decide,
    c3_amended_exchange ["/print".toList]
      [["!re".toList, "=a=1".toList], ["!re".toList, "=a=2".toList]] []
      "!done".toList [] (by decide) (by decide) (by decide)⟩

/-! ## Supporting lemmas for attribute parsing -/

/-- A list with no `'='` has no `'='` index, whatever the start offset. -/
theorem findIdx?_eq_none_of_no_eq :
    ∀ (l : List Char) (i : Nat), (∀ c ∈ l, c ≠ '=') →
      l.findIdx? (fun ch => ch == '=') i = none := by
  intro l
  induction l with
  | nil => intro i _; simp [List.findIdx?_nil]
  | cons c rest ih =>
    intro i h
    have hc : c ≠ '=' := h c (List.mem_cons_self c rest)
    rw [List.findIdx?_cons, if_neg (by simp [hc])]
    exact ih (i + 1) (fun x hx => h x (List.mem_cons_of_mem c hx))

/-- The first `'='` of `k ++ '=' :: v` is right after `k` when `k` itself is
`'='`-free. -/
theorem findIdx?_first_eq :
    ∀ (k : List Char) (v : List Char) (i : Nat), (∀ c ∈ k, c ≠ '=') →
      (k ++ '=' :: v).findIdx? (fun ch => ch == '=') i = some (i + k.length) := by
  intro k
  induction k with
  | nil => intro v i _; simp [List.findIdx?_cons]
  | cons c k1 ih =>
    intro v i h
    have hc : c ≠ '=' := h c (List.mem_cons_self c k1)
    rw [List.cons_append, List.findIdx?_cons, if_neg (by simp [hc])]
    rw [ih v (i + 1) (fun x hx => h x (List.mem_cons_of_mem c hx))]
    congr 1
    simp
    omega

/-- The split of a word with a first `'='` at position `|k| ≥ 1`: key is the
`'='`-free-after-position-0 prefix `k`, value everything after that `'='`. -/
theorem splitAttrWord_with_eq (k v : Word) (hk : k ≠ []) (hne : ∀ c ∈ k.drop 1, c ≠ '=') :
    splitAttrWord (k ++ '=' :: v) = (k, v) := by
  match k, hk with
  | [], hk => exact absurd rfl hk
  | c :: k1, _ =>
    have hne1 : ∀ x ∈ k1, x ≠ '=' := by
      intro x hx
      exact hne x (by simpa using hx)
    rw [List.cons_append]
    simp only [splitAttrWord]
    simp only [findIdx?_first_eq k1 v 0 hne1, Nat.zero_add]
    have ht : (k1 ++ '=' :: v).take k1.length = k1 := List.take_left k1 ('=' :: v)
    have hd : (k1 ++ '=' :: v).drop (k1.length + 1) = v := by
      have h2 : k1 ++ '=' :: v = (k1 ++ ['=']) ++ v := by simp
      rw [h2, List.drop_left' (by simp)]
    rw [ht, hd]

/-- The split of a word with no `'='` at any position ≥ 1: key is the whole
word, value the empty string. -/
theorem splitAttrWord_no_eq (w : Word) (hw : w ≠ []) (hne : ∀ c ∈ w.drop 1, c ≠ '=') :
    splitAttrWord w = (w, []) := by
  match w, hw with
  | [], hw => exact absurd rfl hw
  | c :: rest, _ =>
    have hne1 : ∀ x ∈ rest, x ≠ '=' := by
      intro x hx
      exact hne x (by simpa using hx)
    simp only [splitAttrWord]
    simp only [findIdx?_eq_none_of_no_eq rest 0 hne1]

/-- Looking up a (non-`"__proto__"`) key just assigned finds the assigned
value. -/
theorem lookupAttr_insertAttr_self :
    ∀ (m : List (Word × Word)) (k v : Word), k ≠ protoWord →
      lookupAttr (insertAttr m k v) k = some v := by
  intro m k v hk
  rw [insertAttr, if_neg hk]
  induction m with
  | nil => simp [setOwnProp, lookupAttr]
  | cons p rest ih =>
    by_cases h : p.1 = k
    · simp [setOwnProp, h, lookupAttr]
    · simpa [setOwnProp, h, lookupAttr] using ih

/-- Assigning under a different key does not change a lookup (an assignment
under `"__proto__"` changes nothing at all). -/
theorem lookupAttr_insertAttr_ne :
    ∀ (m : List (Word × Word)) (k1 v1 k : Word), k1 ≠ k →
      lookupAttr (insertAttr m k1 v1) k = lookupAttr m k := by
  intro m k1 v1 k hne
  by_cases hp : k1 = protoWord
  · rw [insertAttr, if_pos hp]
  · rw [insertAttr, if_neg hp]
    induction m with
    | nil => simp [setOwnProp, lookupAttr, hne]
    | cons p rest ih =>
      by_cases h : p.1 = k1
      · simp [setOwnProp, h, lookupAttr, hne]
      · simp [setOwnProp, h, lookupAttr]
        by_cases h2 : p.1 = k
        · simp [h2]
        · simp [h2, ih]

/-- Folding further attribute words whose keys differ from `k` preserves the
binding of `k`. -/
theorem lookupAttr_foldl_preserved :
    ∀ (ws : List Word) (m : List (Word × Word)) (k v : Word),
      (∀ w2 ∈ ws, (splitAttrWord w2).1 ≠ k) → lookupAttr m k = some v →
      lookupAttr (ws.foldl (fun m w => let p := splitAttrWord w; insertAttr m p.1 p.2) m) k =
        some v := by
  intro ws
  induction ws with
  | nil => intro m k v _ h; exact h
  | cons w2 rest ih =>
    intro m k v hks h
    have h1 : (splitAttrWord w2).1 ≠ k := hks w2 (List.mem_cons_self w2 rest)
    simp only [List.foldl_cons]
    exact ih _ k v (fun x hx => hks x (List.mem_cons_of_mem w2 hx))
      ((lookupAttr_insertAttr_ne m (splitAttrWord w2).1 (splitAttrWord w2).2 k h1).trans h)

/-- Claim C4, counterexample.  The JS `"__proto__"` pitfall: on a plain
object, `attributes["__proto__"] = value` is swallowed by the inherited
`Object.prototype.__proto__` accessor when the value is a string, so the
remote-supplied attribute words `__proto__` (no `'='` at position ≥ 1) and
`__proto__=abc` create NO binding at all — while the claim asserts that
they map to `""` and `"abc"` respectively. -/
theorem c4_counterexample_proto_key :
    lookupAttr (parseSentence ["!re".toList, "__proto__".toList]).2 "__proto__".toList =
      none ∧
    lookupAttr (parseSentence ["!re".toList, "__proto__".toList]).2 "__proto__".toList ≠
      some [] ∧
    lookupAttr (parseSentence ["!re".toList, "__proto__=abc".toList]).2 "__proto__".toList =
      none ∧
    lookupAttr (parseSentence ["!re".toList, "__proto__=abc".toList]).2 "__proto__".toList ≠
      some "abc".toList := by
  decide

/-- Claim C4, amended: for every parsed key OTHER than the literal
`"__proto__"` (whose plain-object assignment is swallowed, see
`insertAttr`).  First conjunct: a non-first word of the shape
`k ++ "=" ++ v` — `k` non-empty with no `'='` past its first character, so
the `'='` shown is the first one at position ≥ 1 — is mapped as key `k`,
value `v`, and (last-write-wins) this holds whatever earlier words `ws1`
bound, provided no later word `ws2` re-binds `k`.  Second conjunct: a word
with no `'='` at any position ≥ 1 is mapped whole-word to the empty value
under the same conditions. -/
theorem c4_attribute_parsing :
    (∀ (ty : Word) (ws1 ws2 : List Word) (k v : Word),
      k ≠ [] → k ≠ protoWord → (∀ c ∈ k.drop 1, c ≠ '=') →
      (∀ w2 ∈ ws2, (splitAttrWord w2).1 ≠ k) →
      lookupAttr (parseSentence (ty :: (ws1 ++ (k ++ '=' :: v) :: ws2))).2 k = some v) ∧
    (∀ (ty : Word) (ws1 ws2 : List Word) (w : Word),
      w ≠ [] → w ≠ protoWord → (∀ c ∈ w.drop 1, c ≠ '=') →
      (∀ w2 ∈ ws2, (splitAttrWord w2).1 ≠ w) →
      lookupAttr (parseSentence (ty :: (ws1 ++ w :: ws2))).2 w = some []) := by
  constructor
  · intro ty ws1 ws2 k v hk hkp hne hks
    simp only [parseSentence, parseAttrs, List.foldl_append, List.foldl_cons]
    apply lookupAttr_foldl_preserved ws2 _ k v hks
    rw [splitAttrWord_with_eq k v hk hne]
    exact lookupAttr_insertAttr_self _ k v hkp
  · intro ty ws1 ws2 w hw hwp hne hks
    simp only [parseSentence, parseAttrs, List.foldl_append, List.foldl_cons]
    apply lookupAttr_foldl_preserved ws2 _ w [] hks
    rw [splitAttrWord_no_eq w hw hne]
    exact lookupAttr_insertAttr_self _ w [] hwp

/-- Witness for `c4_attribute_parsing`: `=ret=abc` (with an earlier
duplicate `=ret=zzz` that is overwritten — last write wins) maps key `=ret`
to `abc`; `=name=a=b` splits only at the second `=`; the `'='`-free word
`yes` maps to the empty value.  None of these keys is `"__proto__"`. -/
theorem c4_attribute_parsing_witness :
    (("=ret".toList ≠ ([] : Word)) ∧ ("=ret".toList ≠ protoWord) ∧
      (∀ c ∈ "=ret".toList.drop 1, c ≠ '=') ∧
      (∀ w2 ∈ ["=name=a=b".toList], (splitAttrWord w2).1 ≠ "=ret".toList) ∧
      lookupAttr (parseSentence ["!re".toList, "=ret=zzz".toList,
        ("=ret".toList ++ '=' :: "abc".toList), "=name=a=b".toList]).2 "=ret".toList =
        some "abc".toList) ∧
    (lookupAttr (parseSentence ["!re".toList, "=name=a=b".toList]).2 "=name".toList =
      some "a=b".toList) ∧
    (("yes".toList ≠ ([] : Word)) ∧ ("yes".toList ≠ protoWord) ∧
      (∀ c ∈ "yes".toList.drop 1, c ≠ '=') ∧
      lookupAttr (parseSentence ["!re".toList, "yes".toList]).2 "yes".toList = some []) :=
  ⟨⟨by decide, by decide, by decide, by decide,
      c4_attribute_parsing.1 "!re".toList ["=ret=zzz".toList] ["=name=a=b".toList]
        "=ret".toList "abc".toList (by decide) (by decide) (by decide) (by decide)⟩,
    (by
      rw [show ("=name=a=b".toList : Word) = "=name".toList ++ '=' :: "a=b".toList from by decide]
      exact c4_attribute_parsing.1 "!re".toList [] [] "=name".toList "a=b".toList
        (by decide) (by decide) (by decide) (by decide)),
    ⟨by decide, by decide, by decide,
      c4_attribute_parsing.2 "!re".toList [] [] "yes".toList
        (by decide) (by decide) (by decide) (by decide)⟩⟩

/-! ## Supporting definitions and lemmas for the login theorems -/

/-- A sentence that the outer login loop passes over without acting: empty
(skipped inside `sendCommand`), or parsed to a reply that is not `!trap`,
carries no `"=ret"` attribute, and is not terminal. -/
def outerClean (s : Sentence) : Bool :=
  s.isEmpty ||
    (!(decide ((parseSentence s).1 = trapWord)) &&
      !(lookupAttr (parseSentence s).2 "=ret".toList).isSome &&
      !(isTerminalWord (parseSentence s).1))

/-- A sentence that the nested challenge exchange passes over without
acting: empty, or parsed to a reply that is neither `!trap` nor terminal. -/
def innerClean (s : Sentence) : Bool :=
  s.isEmpty ||
    (!(decide ((parseSentence s).1 = trapWord)) && !(isTerminalWord (parseSentence s).1))

theorem outerClean_spec {s : Sentence} (hs : s ≠ []) (h : outerClean s = true) :
    (parseSentence s).1 ≠ trapWord ∧
    lookupAttr (parseSentence s).2 "=ret".toList = none ∧
    isTerminalWord (parseSentence s).1 = false := by
  have hne : s.isEmpty = false := by
    cases s with
    | nil => exact absurd rfl hs
    | cons a l => rfl
  simp only [outerClean, hne, Bool.false_or, Bool.and_eq_true, Bool.not_eq_true',
    decide_eq_false_iff_not] at h
  refine ⟨h.1.1, ?_, h.2⟩
  have h2 := h.1.2
  cases hl : lookupAttr (parseSentence s).2 "=ret".toList with
  | none => rfl
  | some v => rw [hl] at h2; simp at h2

theorem innerClean_spec {s : Sentence} (hs : s ≠ []) (h : innerClean s = true) :
    (parseSentence s).1 ≠ trapWord ∧ isTerminalWord (parseSentence s).1 = false := by
  have hne : s.isEmpty = false := by
    cases s with
    | nil => exact absurd rfl hs
    | cons a l => rfl
  simp only [innerClean, hne, Bool.false_or, Bool.and_eq_true, Bool.not_eq_true',
    decide_eq_false_iff_not] at h
  exact h

/-- The outer login loop passes over a prefix of clean sentences without
sending anything or deciding. -/
theorem loginGo_outer_skip (u p : Word) :
    ∀ (pre rest : List Sentence) (acc : List (List Word)),
      (∀ t ∈ pre, outerClean t = true) →
      loginGo u p .outer (pre ++ rest) acc = loginGo u p .outer rest acc := by
  intro pre
  induction pre with
  | nil => intro rest acc _; rfl
  | cons s0 pre1 ih =>
    intro rest acc hclean
    have h0 := hclean s0 (List.mem_cons_self s0 pre1)
    have hrest : ∀ t ∈ pre1, outerClean t = true :=
      fun t ht => hclean t (List.mem_cons_of_mem s0 ht)
    by_cases hs : s0 = []
    · subst hs
      rw [List.cons_append]
      simp only [loginGo, if_pos rfl]
      exact ih rest acc hrest
    · obtain ⟨h1, h2, h3⟩ := outerClean_spec hs h0
      rw [List.cons_append]
      simp only [loginGo, if_neg hs, if_neg h1, h2, h3]
      simp only [Bool.false_eq_true, if_false]
      exact ih rest acc hrest

/-- The nested challenge loop passes over a prefix of clean sentences
without sending anything or deciding. -/
theorem loginGo_inner_skip (u p : Word) (ot : Bool) :
    ∀ (pre rest : List Sentence) (acc : List (List Word)),
      (∀ t ∈ pre, innerClean t = true) →
      loginGo u p (.inner ot) (pre ++ rest) acc = loginGo u p (.inner ot) rest acc := by
  intro pre
  induction pre with
  | nil => intro rest acc _; rfl
  | cons s0 pre1 ih =>
    intro rest acc hclean
    have h0 := hclean s0 (List.mem_cons_self s0 pre1)
    have hrest : ∀ t ∈ pre1, innerClean t = true :=
      fun t ht => hclean t (List.mem_cons_of_mem s0 ht)
    by_cases hs : s0 = []
    · subst hs
      rw [List.cons_append]
      simp only [loginGo, if_pos rfl]
      exact ih rest acc hrest
    · obtain ⟨h1, h2⟩ := innerClean_spec hs h0
      rw [List.cons_append]
      simp only [loginGo, if_neg hs, if_neg h1, h2]
      simp only [Bool.false_eq_true, if_false]
      exact ih rest acc hrest

/-- `loginGo` only ever appends to the accumulated list of sent sentences. -/
theorem loginGo_acc_extends (u p : Word) :
    ∀ (stream : List Sentence) (m : LoginMode) (acc : List (List Word)),
      ∃ ext, (loginGo u p m stream acc).1 = acc ++ ext := by
  intro stream
  induction stream with
  | nil =>
    intro m acc
    refine ⟨[], ?_⟩
    cases m <;> simp [loginGo]
  | cons s rest ih =>
    intro m acc
    cases m with
    | outer =>
      by_cases hs : s = []
      · subst hs
        simpa only [loginGo, if_pos rfl] using ih .outer acc
      · simp only [loginGo, if_neg hs]
        by_cases h1 : (parseSentence s).1 = trapWord
        · rw [if_pos h1]; exact ⟨[], by simp⟩
        · rw [if_neg h1]
          cases hret : lookupAttr (parseSentence s).2 "=ret".toList with
          | some hch =>
            obtain ⟨ext, hext⟩ := ih (.inner (isTerminalWord (parseSentence s).1))
              (acc ++ [challengeSentence u p hch])
            exact ⟨challengeSentence u p hch :: ext, by simp [hext]⟩
          | none =>
            by_cases ht : isTerminalWord (parseSentence s).1 = true
            · rw [if_pos ht]; exact ⟨[], by simp⟩
            · rw [if_neg ht]; exact ih .outer acc
    | inner ot =>
      by_cases hs : s = []
      · subst hs
        simpa only [loginGo, if_pos rfl] using ih (.inner ot) acc
      · simp only [loginGo, if_neg hs]
        by_cases h1 : (parseSentence s).1 = trapWord
        · rw [if_pos h1]; exact ⟨[], by simp⟩
        · rw [if_neg h1]
          by_cases ht : isTerminalWord (parseSentence s).1 = true
          · rw [if_pos ht]
            cases ot with
            | true => exact ⟨[], by simp⟩
            | false => exact ih .outer acc
          · rw [if_neg ht]; exact ih (.inner ot) acc

/-! ## Claim theorems for login -/

/-- Claim C2.  Challenge-response construction: whenever the first login
exchange surfaces (after clean sentences, with no preceding `!trap`) a
reply whose attribute mapping contains `"=ret"` with hex value `h`, `login`
sends as its second sentence a `/login` command whose response word is the
literal `"=response=00"` followed by the lowercase MD5 hex digest of
`0x00 ‖ UTF8(password) ‖ hexDecode(h)` — see `challengeSentence`. -/
theorem c2_challenge_response :
    ∀ (u p : Word) (pre : List Sentence) (s : Sentence) (rest : List Sentence) (h : Word),
      (∀ t ∈ pre, outerClean t = true) → s ≠ [] →
      (parseSentence s).1 ≠ trapWord →
      lookupAttr (parseSentence s).2 "=ret".toList = some h →
      (login u p (pre ++ s :: rest)).1.take 2 =
        [loginFirstSentence u p, challengeSentence u p h] := by
  intro u p pre s rest h hpre hs htrap hret
  unfold login
  rw [loginGo_outer_skip u p pre (s :: rest) _ hpre]
  simp only [loginGo, if_neg hs, if_neg htrap, hret]
  obtain ⟨ext, hext⟩ := loginGo_acc_extends u p rest
    (.inner (isTerminalWord (parseSentence s).1))
    ([loginFirstSentence u p] ++ [challengeSentence u p h])
  rw [hext]
  simp

/-- Witness for `c2_challenge_response`: the spec's test vector.  Password
`"test"`, challenge hex `"0102030405060708090a0b0c0d0e0f10"` carried by the
`!done` reply; the second sentence sent carries
`=response=00cba7ea64be821496c299d7ab74ead4aa`, where
`cba7ea64be821496c299d7ab74ead4aa` is the independently computed
`MD5(0x00 ‖ "test" ‖ challengeBytes)` (see `md5Hex_challenge_vector`). -/
theorem c2_challenge_response_witness :
    ((∀ t ∈ ([] : List Sentence), outerClean t = true) ∧
      (["!done".toList, "=ret=0102030405060708090a0b0c0d0e0f10".toList] ≠ ([] : Sentence)) ∧
      (parseSentence ["!done".toList, "=ret=0102030405060708090a0b0c0d0e0f10".toList]).1 ≠
        trapWord ∧
      lookupAttr (parseSentence
          ["!done".toList, "=ret=0102030405060708090a0b0c0d0e0f10".toList]).2
        "=ret".toList = some "0102030405060708090a0b0c0d0e0f10".toList) ∧
    (login "admin".toList "test".toList
        ([] ++ ["!done".toList, "=ret=0102030405060708090a0b0c0d0e0f10".toList] :: [])).1.take 2 =
      [loginFirstSentence "admin".toList "test".toList,
        challengeSentence "admin".toList "test".toList
          "0102030405060708090a0b0c0d0e0f10".toList] ∧
    challengeSentence "admin".toList "test".toList
        "0102030405060708090a0b0c0d0e0f10".toList =
      ["/login".toList, "=name=admin".toList,
        "=response=00cba7ea64be821496c299d7ab74ead4aa".toList] :=
  ⟨⟨by decide, by decide, by decide, by decide⟩,
    c2_challenge_response "admin".toList "test".toList []
      ["!done".toList, "=ret=0102030405060708090a0b0c0d0e0f10".toList] []
      "0102030405060708090a0b0c0d0e0f10".toList
      (by decide) (by decide) (by decide) (by decide),
    by decide⟩

/-- Claim C9.  Login failure is a normal boolean outcome.
Conjunct 1: a `!trap` reply surfaced in the first exchange (after clean
sentences) makes `login` return `false`.
Conjunct 2: a `!trap` reply surfaced in the nested challenge exchange
(after an `"=ret"` reply and clean intermediate sentences) makes `login`
return `false`.
Conjunct 3: a first exchange that terminates with no `!trap` and no
`"=ret"` anywhere makes `login` return `true` having sent only the single
first login sentence. -/
theorem c9_login_failure_semantics :
    (∀ (u p : Word) (pre : List Sentence) (s : Sentence) (rest : List Sentence),
      (∀ t ∈ pre, outerClean t = true) → s ≠ [] → (parseSentence s).1 = trapWord →
      (login u p (pre ++ s :: rest)).2 = some false) ∧
    (∀ (u p : Word) (pre : List Sentence) (s : Sentence) (mid : List Sentence)
        (t : Sentence) (rest : List Sentence) (h : Word),
      (∀ x ∈ pre, outerClean x = true) → s ≠ [] → (parseSentence s).1 ≠ trapWord →
      lookupAttr (parseSentence s).2 "=ret".toList = some h →
      (∀ x ∈ mid, innerClean x = true) → t ≠ [] → (parseSentence t).1 = trapWord →
      (login u p (pre ++ s :: (mid ++ t :: rest))).2 = some false) ∧
    (∀ (u p : Word) (pre : List Sentence) (s : Sentence) (rest : List Sentence),
      (∀ t ∈ pre, outerClean t = true) → s ≠ [] → (parseSentence s).1 ≠ trapWord →
      lookupAttr (parseSentence s).2 "=ret".toList = none →
      isTerminalWord (parseSentence s).1 = true →
      login u p (pre ++ s :: rest) = ([loginFirstSentence u p], some true)) := by
  refine ⟨?_, ?_, ?_⟩
  · intro u p pre s rest hpre hs htrap
    unfold login
    rw [loginGo_outer_skip u p pre (s :: rest) _ hpre]
    simp only [loginGo, if_neg hs, if_pos htrap]
  · intro u p pre s mid t rest h hpre hs htrap hret hmid ht httrap
    unfold login
    rw [loginGo_outer_skip u p pre (s :: (mid ++ t :: rest)) _ hpre]
    simp only [loginGo, if_neg hs, if_neg htrap, hret]
    rw [loginGo_inner_skip u p (isTerminalWord (parseSentence s).1) mid (t :: rest) _ hmid]
    simp only [loginGo, if_neg ht, if_pos httrap]
  · intro u p pre s rest hpre hs htrap hret hterm
    unfold login
    rw [loginGo_outer_skip u p pre (s :: rest) _ hpre]
    simp only [loginGo, if_neg hs, if_neg htrap, hret, hterm, if_true]

/-- Witness for `c9_login_failure_semantics`: (1) an immediate `!trap`
fails the login; (2) a challenge reply followed by a `!trap` in the second
exchange fails it; (3) a clean `!done` with no challenge succeeds with one
sentence sent. -/
theorem c9_login_failure_semantics_witness :
    ((["!trap".toList] ≠ ([] : Sentence)) ∧
      (parseSentence ["!trap".toList]).1 = trapWord ∧
      (login "u".toList "p".toList ([] ++ ["!trap".toList] :: [])).2 = some false) ∧
    ((parseSentence ["!done".toList, "=ret=00ff".toList]).1 ≠ trapWord ∧
      lookupAttr (parseSentence ["!done".toList, "=ret=00ff".toList]).2 "=ret".toList =
        some "00ff".toList ∧
      (parseSentence ["!trap".toList, "=message=bad".toList]).1 = trapWord ∧
      (login "u".toList "p".toList
        ([] ++ ["!done".toList, "=ret=00ff".toList] ::
          ([] ++ ["!trap".toList, "=message=bad".toList] :: []))).2 = some false) ∧
    (lookupAttr (parseSentence ["!done".toList]).2 "=ret".toList = none ∧
      isTerminalWord (parseSentence ["!done".toList]).1 = true ∧
      login "u".toList "p".toList ([] ++ ["!done".toList] :: []) =
        ([loginFirstSentence "u".toList "p".toList], some true)) :=
  ⟨⟨by decide, by decide,
      c9_login_failure_semantics.1 "u".toList "p".toList [] ["!trap".toList] []
        (by decide) (by decide) (by decide)⟩,
    ⟨by decide, by decide, by decide,
      c9_login_failure_semantics.2.1 "u".toList "p".toList []
        ["!done".toList, "=ret=00ff".toList] [] ["!trap".toList, "=message=bad".toList] []
        "00ff".toList (by decide) (by decide) (by decide) (by decide) (by decide)
        (by decide) (by decide)⟩,
    ⟨by decide, by decide,
      c9_login_failure_semantics.2.2 "u".toList "p".toList [] ["!done".toList] []
        (by decide) (by decide) (by decide) (by decide) (by decide)⟩⟩

/-! ## Claim theorem for sentence framing -/

/-- All-ASCII repeated words encode byte-per-character. -/
theorem utf8Encode_replicate_a :
    ∀ n : Nat, utf8Encode (List.replicate n 'a') = List.replicate n 97 := by
  intro n
  induction n with
  | zero => rfl
  | succ k ih =>
    rw [List.replicate_succ,
      show utf8Encode ('a' :: List.replicate k 'a') =
        utf8EncodeChar 'a'.toNat ++ utf8Encode (List.replicate k 'a') from rfl,
      ih, show utf8EncodeChar 'a'.toNat = [97] from rfl]
    rw [List.replicate_succ]
    rfl

/-- Decoding a 5-byte (`0xf0`-tagged) length prefix with symbolic payload
bytes: the four value bytes are reassembled with the signed `<<`. -/
theorem decodeLength_f0 (b0 b1 b2 b3 : Nat) (r : List Nat) :
    decodeLength (240 :: b0 :: b1 :: b2 :: b3 :: r) =
      some (jsShl (b0 : Int) 24 + jsShl (b1 : Int) 16 + jsShl (b2 : Int) 8 + (b3 : Int), r) := by
  simp only [decodeLength]
  rw [if_neg (by decide), if_neg (by decide), if_neg (by decide), if_neg (by decide),
    if_pos (by decide)]

/-- The wire bytes of the one-big-word sentence: the 5-byte prefix
`f0 80 00 00 00`, the payload, and the terminator byte. -/
theorem sendSentenceBytes_big_word :
    sendSentenceBytes [List.replicate (2 ^ 31) 'a'] =
      240 :: 128 :: 0 :: 0 :: 0 :: (List.replicate (2 ^ 31) 97 ++ [0]) := by
  have h1 : sendWordBytes (List.replicate (2 ^ 31) 'a') =
      [240, 128, 0, 0, 0] ++ List.replicate (2 ^ 31) 97 := by
    unfold sendWordBytes
    rw [utf8Encode_replicate_a, List.length_replicate,
      show encodeLength (2 ^ 31) = [240, 128, 0, 0, 0] from by decide]
  have h2 : sendWordBytes [] = [0] := by decide
  unfold sendSentenceBytes
  rw [List.map_cons, List.map_nil, h1, h2]
  simp only [List.flatten, List.append_nil, List.append_assoc, List.cons_append,
    List.nil_append]

/-- If the first word read fails, the whole sentence read fails, whatever
the fuel. -/
theorem receiveSentenceAux_none (fuel : Nat) (bs : List Nat)
    (h : receiveWordBytes bs = none) : receiveSentenceAux fuel bs = none := by
  cases fuel with
  | zero => rfl
  | succ f => simp only [receiveSentenceAux, h]

/-- Claim C7.  The sentence framing round-trip FAILS for a command holding
one word of `2^31` bytes: `encodeLength` emits the correct prefix
`f0 80 00 00 00`, but `decodeLength` reassembles it with the signed JS `<<`
as `0x80 << 24 = -2^31`, a negative length on which the payload read fails
(`Buffer.allocUnsafe` of a negative size throws), so decoding the encoded
sentence yields no sentence at all instead of the original word list.  The
second conjunct isolates the root cause at the length codec. -/
theorem c7_roundtrip_fails_big_word :
    receiveSentenceBytes (sendSentenceBytes [List.replicate (2 ^ 31) 'a']) = none ∧
    decodeLength (encodeLength (2 ^ 31)) = some (-(2 ^ 31 : Int), []) := by
  constructor
  · rw [sendSentenceBytes_big_word]
    have hword : receiveWordBytes
        (240 :: 128 :: 0 :: 0 :: 0 :: (List.replicate (2 ^ 31) 97 ++ [0])) = none := by
      unfold receiveWordBytes
      simp only [decodeLength_f0]
      rw [if_pos (by decide)]
    unfold receiveSentenceBytes
    exact receiveSentenceAux_none _ _ hword
  · decide
